import Mathlib

/-!
Verification of the wallet core of the ts-sdk repository: coin selection,
transaction-size/fee estimation, the send fee-convergence loop, the anchor
fee-bump (CPFP) builder, the unroll session state machine, the exit-path
resolver and the unroll-completion transaction builder.

The definitions below are a shallow embedding of the TypeScript sources.
JavaScript numbers are modelled exactly: an integer-valued amount is a `Nat`
or an `Int`, a general numeric value is a `Rat` (every value arising in the
claims stays far below 2^53, where double arithmetic on integers and on
exact rationals with small denominators coincides), and `JSNum` adds the
NaN element that `selectCoins` tests for. Fallible code returns `Except`.
-/

/-! ## Data model: coins -/

/-- Confirmation status of an on-chain coin, as the explorer reports it. -/
structure CoinStatus where
  confirmed : Bool
  blockHeight : Option Nat
  blockHash : Option String
  blockTime : Option Nat
deriving Repr, DecidableEq

/-- A plain on-chain UTXO: txid, output index and value in satoshis.
The data model fixes `value` as a non-negative integer. -/
structure Coin where
  txid : String
  vout : Nat
  value : Nat
  status : CoinStatus
deriving Repr, DecidableEq

/-- Sum of the values of a list of coins. -/
def coinSum (l : List Coin) : Nat :=
  (l.map Coin.value).sum

/-! ## JavaScript numbers for `selectCoins` -/

/-- A JavaScript number as `selectCoins` receives it: either NaN or a finite
numeric value (modelled exactly as a rational). -/
inductive JSNum where
  | nan : JSNum
  | num (q : Rat) : JSNum
deriving Repr, DecidableEq

/-- The errors `selectCoins` can signal: the two explicit invalid-amount
throws, the insufficient-funds throw, and the RangeError raised by the
JavaScript `BigInt` constructor when the change difference is not an
integer. -/
inductive SelectError where
  | invalidAmountNaN : SelectError
  | invalidAmountNegative : SelectError
  | insufficientFunds : SelectError
  | bigIntRangeError : SelectError
deriving Repr, DecidableEq

/-- Whether an error is one of the invalid-amount throws. -/
def SelectError.isInvalidAmount : SelectError → Bool
  | .invalidAmountNaN => true
  | .invalidAmountNegative => true
  | _ => false

/-- Result of coin selection: chosen inputs and the change amount (a BigInt
in the source, an `Int` here). -/
structure CoinSelection where
  inputs : List Coin
  changeAmount : Int
deriving Repr, DecidableEq

/-- `[...coins].sort((a, b) => b.value - a.value)`: stable sort by value,
descending. A stable sort's output is unique, so the structurally recursive
insertion sort models the JavaScript engine's stable sort exactly. -/
def sortByValueDesc (coins : List Coin) : List Coin :=
  coins.insertionSort (fun a b => b.value ≤ a.value)

/-- The selection loop of `selectCoins`: push each coin, accumulate its
value, and stop as soon as the running sum satisfies the stopping rule
(`sum > target` with `forceChange`, `sum >= target` without). -/
def selectLoop (forceChange : Bool) (target : Rat) :
    List Coin → List Coin → Nat → List Coin × Nat
  | [], sel, sum => (sel, sum)
  | c :: rest, sel, sum =>
    let sel2 := sel ++ [c]
    let sum2 := sum + c.value
    if (if forceChange then target < (sum2 : Rat) else target ≤ (sum2 : Rat)) then
      (sel2, sum2)
    else
      selectLoop forceChange target rest sel2 sum2

/-- `selectCoins(coins, targetAmount, forceChange)` from the source: throws
on NaN and on negative targets, returns the empty selection at target zero,
sorts descending, runs the greedy loop, then classifies the outcome.
`BigInt(selectedAmount - targetAmount)` is a RangeError when the difference
is not an integer. -/
def selectCoins (coins : List Coin) (targetAmount : JSNum)
    (forceChange : Bool := false) : Except SelectError CoinSelection :=
  match targetAmount with
  | .nan => .error .invalidAmountNaN
  | .num t =>
    if t < 0 then .error .invalidAmountNegative
    else if t = 0 then .ok { inputs := [], changeAmount := 0 }
    else
      let r := selectLoop forceChange t (sortByValueDesc coins) [] 0
      if (r.2 : Rat) = t then .ok { inputs := r.1, changeAmount := 0 }
      else if (r.2 : Rat) < t then .error .insufficientFunds
      else
        let diff : Rat := (r.2 : Rat) - t
        if diff.den = 1 then .ok { inputs := r.1, changeAmount := diff.num }
        else .error .bigIntRangeError

/-! ## Transaction weight estimator -/

/-- Accumulator state of `TxWeightEstimator`: running counts and byte sizes
for inputs and outputs, plus the witness-present flag. -/
structure TxWeightEstimator where
  hasWitness : Bool
  inputCount : Nat
  outputCount : Nat
  inputSize : Nat
  inputWitnessSize : Nat
  outputSize : Nat
deriving Repr, DecidableEq

/-- `1 + 73 + 1 + 33`. -/
def TxWeightEstimator.P2PKH_SCRIPT_SIG_SIZE : Nat := 1 + 73 + 1 + 33

/-- `32 + 4 + 1 + 4`: the non-witness cost of one input. -/
def TxWeightEstimator.INPUT_SIZE : Nat := 32 + 4 + 1 + 4

/-- `1 + 32`. -/
def TxWeightEstimator.BASE_CONTROL_BLOCK_SIZE : Nat := 1 + 32

/-- `8 + 1`: amount plus script length prefix of an output. -/
def TxWeightEstimator.OUTPUT_SIZE : Nat := 8 + 1

/-- `1 + 1 + 20`. -/
def TxWeightEstimator.P2WPKH_OUTPUT_SIZE : Nat := 1 + 1 + 20

/-- `8 + 2`: version plus locktime. -/
def TxWeightEstimator.BASE_TX_SIZE : Nat := 8 + 2

/-- `2`: segwit flag plus marker. -/
def TxWeightEstimator.WITNESS_HEADER_SIZE : Nat := 2

/-- `4`. -/
def TxWeightEstimator.WITNESS_SCALE_FACTOR : Nat := 4

/-- `1 + 1 + 32`. -/
def TxWeightEstimator.P2TR_OUTPUT_SIZE : Nat := 1 + 1 + 32

/-- Bitcoin compact-size length of a count: 1, 3, 5 or 9 bytes. -/
def getVarIntSize (n : Nat) : Nat :=
  if n < 0xfd then 1
  else if n < 0xffff then 3
  else if n < 0xffffffff then 5
  else 9

/-- `TxWeightEstimator.create()`. -/
def TxWeightEstimator.create : TxWeightEstimator :=
  { hasWitness := false, inputCount := 0, outputCount := 0,
    inputSize := 0, inputWitnessSize := 0, outputSize := 0 }

/-- `addP2AInput()`: one witness-free input of fixed size. -/
def TxWeightEstimator.addP2AInput (e : TxWeightEstimator) : TxWeightEstimator :=
  { e with inputCount := e.inputCount + 1,
           inputSize := e.inputSize + INPUT_SIZE }

/-- `addKeySpendInput(isDefault)`: a 64-byte Schnorr signature witness plus
length byte, one more byte when the sighash is not the default, the fixed
non-witness input cost; marks witness-present. -/
def TxWeightEstimator.addKeySpendInput (e : TxWeightEstimator)
    (isDefault : Bool := true) : TxWeightEstimator :=
  { e with inputCount := e.inputCount + 1,
           inputWitnessSize := e.inputWitnessSize + 64 + 1 + (if isDefault then 0 else 1),
           inputSize := e.inputSize + INPUT_SIZE,
           hasWitness := true }

/-- `addP2PKHInput()`: legacy input with its fixed scriptSig size and one
witness count byte. -/
def TxWeightEstimator.addP2PKHInput (e : TxWeightEstimator) : TxWeightEstimator :=
  { e with inputCount := e.inputCount + 1,
           inputWitnessSize := e.inputWitnessSize + 1,
           inputSize := e.inputSize + INPUT_SIZE + P2PKH_SCRIPT_SIG_SIZE }

/-- `addTapscriptInput(leafWitnessSize, leafScriptSize, leafControlBlockSize)`:
leaf witness plus the length-prefixed control-block wrapper; marks
witness-present. -/
def TxWeightEstimator.addTapscriptInput (e : TxWeightEstimator)
    (leafWitnessSize leafScriptSize leafControlBlockSize : Nat) : TxWeightEstimator :=
  let controlBlockWitnessSize :=
    1 + BASE_CONTROL_BLOCK_SIZE + 1 + leafScriptSize + 1 + leafControlBlockSize
  { e with inputCount := e.inputCount + 1,
           inputWitnessSize := e.inputWitnessSize + leafWitnessSize + 1 + controlBlockWitnessSize,
           inputSize := e.inputSize + INPUT_SIZE,
           hasWitness := true }

/-- `addP2WPKHOutput()`. -/
def TxWeightEstimator.addP2WPKHOutput (e : TxWeightEstimator) : TxWeightEstimator :=
  { e with outputCount := e.outputCount + 1,
           outputSize := e.outputSize + OUTPUT_SIZE + P2WPKH_OUTPUT_SIZE }

/-- `addP2TROutput()`. -/
def TxWeightEstimator.addP2TROutput (e : TxWeightEstimator) : TxWeightEstimator :=
  { e with outputCount := e.outputCount + 1,
           outputSize := e.outputSize + OUTPUT_SIZE + P2TR_OUTPUT_SIZE }

/-- `addOutputAddress(address, network)`: the address is decoded by the
external script library into its exact output script; the estimator only
consumes that script's byte length, so the embedding takes the decoded
length directly. Cost is `8 (amount) + varint(scriptLen) + scriptLen`.
A P2WPKH destination decodes to a 22-byte script, a P2TR destination to a
34-byte script. -/
def TxWeightEstimator.addOutputScript (e : TxWeightEstimator)
    (scriptLen : Nat) : TxWeightEstimator :=
  { e with outputCount := e.outputCount + 1,
           outputSize := e.outputSize + 8 + getVarIntSize scriptLen + scriptLen }

/-- The decoded script length of a native-segwit (P2WPKH) destination. -/
def p2wpkhScriptLen : Nat := 22

/-- The decoded script length of a Taproot (P2TR) destination. -/
def p2trScriptLen : Nat := 34

/-- `txSizeStripped` of `vsize()`: the transaction size without witness
data. -/
def TxWeightEstimator.strippedSize (e : TxWeightEstimator) : Nat :=
  BASE_TX_SIZE + getVarIntSize e.inputCount + e.inputSize
    + getVarIntSize e.outputCount + e.outputSize

/-- `weight` of `vsize()`: stripped size scaled by the witness scale factor,
plus the witness header and accumulated witness bytes when the
witness-present flag is set. -/
def TxWeightEstimator.weight (e : TxWeightEstimator) : Nat :=
  e.strippedSize * WITNESS_SCALE_FACTOR
    + (if e.hasWitness then WITNESS_HEADER_SIZE + e.inputWitnessSize else 0)

/-- `vsize().value = Math.ceil(weight / 4)` (exact on naturals). -/
def TxWeightEstimator.vsizeValue (e : TxWeightEstimator) : Nat :=
  (e.weight + 3) / 4

/-- `vsize().fee(feeRate) = feeRate * value` under exact BigInt
arithmetic. -/
def TxWeightEstimator.feeOf (e : TxWeightEstimator) (feeRate : Int) : Int :=
  feeRate * (e.vsizeValue : Int)

/-- An estimator-building operation, used to quantify over every sequence
of add-input and add-output calls. -/
inductive EstimatorOp where
  | p2aInput : EstimatorOp
  | keySpendInput (isDefault : Bool) : EstimatorOp
  | p2pkhInput : EstimatorOp
  | tapscriptInput (leafWitnessSize leafScriptSize leafControlBlockSize : Nat) : EstimatorOp
  | outputScript (scriptLen : Nat) : EstimatorOp
deriving Repr, DecidableEq

/-- Apply one estimator operation. -/
def applyOp (e : TxWeightEstimator) : EstimatorOp → TxWeightEstimator
  | .p2aInput => e.addP2AInput
  | .keySpendInput d => e.addKeySpendInput d
  | .p2pkhInput => e.addP2PKHInput
  | .tapscriptInput lw ls lcb => e.addTapscriptInput lw ls lcb
  | .outputScript len => e.addOutputScript len

/-- Apply a sequence of operations to a fresh estimator. -/
def applyOps (ops : List EstimatorOp) : TxWeightEstimator :=
  ops.foldl applyOp TxWeightEstimator.create

/-- Spec-side ledger for one operation: is it an input. -/
def opIsInput : EstimatorOp → Bool
  | .outputScript _ => false
  | _ => true

/-- Spec-side ledger: the non-witness byte cost of one operation, with the
per-input non-witness cost of 41 bytes. -/
def opNonWitnessInputCost : EstimatorOp → Nat
  | .p2aInput => 41
  | .keySpendInput _ => 41
  | .p2pkhInput => 41 + 108
  | .tapscriptInput _ _ _ => 41
  | .outputScript _ => 0

/-- Spec-side ledger: the output byte cost of one operation
(`8 + varint(len) + len`). -/
def opOutputCost : EstimatorOp → Nat
  | .outputScript len => 8 + getVarIntSize len + len
  | _ => 0

/-- Spec-side ledger: the witness bytes one operation accumulates. -/
def opWitnessBytes : EstimatorOp → Nat
  | .p2aInput => 0
  | .keySpendInput d => 64 + 1 + (if d then 0 else 1)
  | .p2pkhInput => 1
  | .tapscriptInput lw ls lcb => lw + 1 + (1 + 33 + 1 + ls + 1 + lcb)
  | .outputScript _ => 0

/-- Spec-side ledger: does the operation mark the witness-present flag. -/
def opMarksWitness : EstimatorOp → Bool
  | .keySpendInput _ => true
  | .tapscriptInput _ _ _ => true
  | _ => false

/-- Spec-side stripped size of a sequence of operations: base transaction
size 10, the two compact-size counts, and the summed per-input and
per-output costs. -/
def specStrippedSize (ops : List EstimatorOp) : Nat :=
  10 + getVarIntSize (ops.countP opIsInput)
    + (ops.map opNonWitnessInputCost).sum
    + getVarIntSize (ops.countP (fun o => !opIsInput o))
    + (ops.map opOutputCost).sum

/-- Spec-side weight: stripped size times 4, plus the 2-byte witness header
and the accumulated witness bytes exactly when some operation marked the
witness-present flag. -/
def specWeight (ops : List EstimatorOp) : Nat :=
  specStrippedSize ops * 4
    + (if ops.any opMarksWitness then 2 + (ops.map opWitnessBytes).sum else 0)

/-! ## Provider interface data -/

/-- An error from the explorer or indexer: the not-found signal, or any
other provider failure (network error, malformed response). -/
inductive ProviderError where
  | notFound : ProviderError
  | network (msg : String) : ProviderError
  | malformed (msg : String) : ProviderError
deriving Repr, DecidableEq

/-- `getTxStatus` result for a transaction the explorer knows. -/
structure TxStatus where
  confirmed : Bool
  blockHeight : Nat
  blockTime : Nat
deriving Repr, DecidableEq

/-- A point of the chain: height and unix time. -/
structure BlockTime where
  height : Nat
  time : Nat
deriving Repr, DecidableEq

/-! ## Wallet-level definitions -/

/-- Modelled from the spec: `DUST_AMOUNT` is imported from wallet utilities
that are not among the sources; the spec fixes the dust limit at 546
satoshis. -/
def DUST_AMOUNT : Nat := 546

/-- `MIN_FEE_RATE = 1` sat/vbyte. -/
def MIN_FEE_RATE : Rat := 1

/-- `if (!feeRate || feeRate < MIN_FEE_RATE) feeRate = MIN_FEE_RATE`:
a missing rate (`none`) or any rate below the minimum (which covers the
falsy rate 0) is floored to the minimum. -/
def effectiveFeeRate : Option Rat → Rat
  | none => MIN_FEE_RATE
  | some q => if q < MIN_FEE_RATE then MIN_FEE_RATE else q

/-- The errors of the wallet operations. -/
inductive WalletError where
  | select (e : SelectError)
  | provider (e : ProviderError)
  | anchorNotFound
  | invalidFee
  | convergenceFailure
  | noVtxosToUnroll
  | vtxoNotUnrolled (txid : String)
  | txNotConfirmed (txid : String)
  | noExitPath (txid : String)
  | leafNotFound (txid : String)
  | feeRateNotInteger
  | feeExceedsTotal
deriving Repr, DecidableEq

/-- Result of `estimateFeesAndSelectCoins`: the selection spread together
with the converged fee. -/
structure FeeSelection where
  inputs : List Coin
  changeAmount : Int
  fee : Int
deriving Repr, DecidableEq

/-- The body of `estimateFeesAndSelectCoins`, one fuel unit per loop
iteration: select coins for `amount + fee`, estimate with one key-spend
input per selected coin, the payment output, and a change output exactly
when the change reaches the dust limit; converge when the rounded new fee
does not exceed the previous fee. The recipient and change addresses enter
through their decoded script lengths (the wallet's own change address is
P2TR, length 34). -/
def feeConvergenceLoop (coins : List Coin) (amount feeRate : Rat)
    (recipientScriptLen changeScriptLen : Nat) :
    Nat → Int → Except WalletError FeeSelection
  | 0, _ => .error .convergenceFailure
  | fuel + 1, fee =>
    match selectCoins coins (.num (amount + (fee : Rat))) false with
    | .error e => .error (.select e)
    | .ok selected =>
      let est0 := selected.inputs.foldl
        (fun est _ => est.addKeySpendInput true) TxWeightEstimator.create
      let est1 := est0.addOutputScript recipientScriptLen
      let est2 := if (DUST_AMOUNT : Int) ≤ selected.changeAmount then
          est1.addOutputScript changeScriptLen
        else est1
      let newFee : Int := ⌈(est2.vsizeValue : Rat) * feeRate⌉
      if newFee ≤ fee then
        .ok { inputs := selected.inputs, changeAmount := selected.changeAmount,
              fee := newFee }
      else
        feeConvergenceLoop coins amount feeRate recipientScriptLen changeScriptLen
          fuel newFee

/-- `estimateFeesAndSelectCoins`: bounded fixed-point iteration starting at
fee 0, capped at `MAX_ITERATIONS = 10`. -/
def estimateFeesAndSelectCoins (coins : List Coin) (amount feeRate : Rat)
    (recipientScriptLen changeScriptLen : Nat) : Except WalletError FeeSelection :=
  feeConvergenceLoop coins amount feeRate recipientScriptLen changeScriptLen 10 0

/-- Spec-side estimator of one planner iteration, stated through operation
lists: one key-spend input per selected coin, one payment output, and
conditionally one change output. -/
def specPlannerEstimate (inputCount : Nat) (withChange : Bool)
    (recipientScriptLen changeScriptLen : Nat) : TxWeightEstimator :=
  applyOps (List.replicate inputCount (.keySpendInput true)
    ++ [.outputScript recipientScriptLen]
    ++ (if withChange then [.outputScript changeScriptLen] else []))

/-- The fee-convergence loop as §4.3 of the spec words it, written over
operation lists and a countdown of remaining iterations. -/
def specPlannerLoop (coins : List Coin) (amount feeRate : Rat)
    (recipientScriptLen changeScriptLen : Nat) :
    Nat → Int → Except WalletError FeeSelection
  | 0, _ => .error .convergenceFailure
  | left + 1, fee =>
    match selectCoins coins (.num (amount + (fee : Rat))) false with
    | .error e => .error (.select e)
    | .ok selected =>
      let est := specPlannerEstimate selected.inputs.length
        ((DUST_AMOUNT : Int) ≤ selected.changeAmount)
        recipientScriptLen changeScriptLen
      let newFee : Int := ⌈(est.vsizeValue : Rat) * feeRate⌉
      if newFee ≤ fee then
        .ok { inputs := selected.inputs, changeAmount := selected.changeAmount,
              fee := newFee }
      else
        specPlannerLoop coins amount feeRate recipientScriptLen changeScriptLen
          left newFee

/-- The SendPlanner as the spec describes it: start at fee 0 with a cap of
10 iterations. -/
def specSendPlanner (coins : List Coin) (amount feeRate : Rat)
    (recipientScriptLen changeScriptLen : Nat) : Except WalletError FeeSelection :=
  specPlannerLoop coins amount feeRate recipientScriptLen changeScriptLen 10 0

/-! ## Transactions and the anchor fee-bump builder -/

/-- One transaction input as the unroll code inspects it. -/
structure TxInput where
  tapKeySig : Option (List Nat)
deriving Repr, DecidableEq

/-- The slice of the external `Transaction` object the modelled code reads
and writes: serialized hex, virtual size, inputs, whether a P2A anchor
output is present, the explicitly set final witness of input 0, and the
generic-finalization mark. -/
structure Tx where
  hex : String
  vsize : Nat
  inputs : List TxInput
  hasP2AOutput : Bool
  finalScriptWitness0 : Option (List (List Nat))
  finalized : Bool
deriving Repr, DecidableEq

/-- Modelled from the spec: generic script finalization (`tx.finalize()`)
of the external `Transaction` class, which is not among the sources;
represented as marking the transaction finalized. -/
def Tx.finalize (t : Tx) : Tx :=
  { t with finalized := true }

/-- The collaborators `OnchainWallet.bumpP2A` consumes: provider calls, the
external signer and serializer for the child transaction (as a function of
the child's selected wallet inputs and its output amount), the wallet's own
P2TR script length, and the anchor output's fixed value (`P2A.amount`, an
external constant). -/
structure WalletEnv where
  getFeeRate : Except ProviderError (Option Rat)
  getCoins : Except ProviderError (List Coin)
  broadcastPackage : String → String → Except ProviderError String
  signChildHex : List Coin → Int → String
  addressScriptLen : Nat
  anchorAmount : Int

/-- `OnchainWallet.bumpP2A(parent)`: build the CPFP child (fail when the
parent has no anchor output), price the parent+child package, fail on a
zero fee, select wallet coins with `forceChange = true`, sign -- and then
broadcast inside a `try` whose `catch` only logs and whose `finally`
returns the package, so the broadcast's outcome never influences the
returned value. -/
def OnchainWallet.bumpP2A (env : WalletEnv) (parent : Tx) :
    Except WalletError (String × String) :=
  if parent.hasP2AOutput = false then .error .anchorNotFound
  else
    let childVsize := (((TxWeightEstimator.create.addKeySpendInput true).addP2AInput).addOutputScript
      env.addressScriptLen).vsizeValue
    let packageVSize := parent.vsize + childVsize
    match env.getFeeRate with
    | .error e => .error (.provider e)
    | .ok r =>
      let feeRate := effectiveFeeRate r
      let fee : Int := ⌈feeRate * (packageVSize : Rat)⌉
      if fee = 0 then .error .invalidFee
      else
        match env.getCoins with
        | .error e => .error (.provider e)
        | .ok coins =>
          match selectCoins coins (.num (fee : Rat)) true with
          | .error e => .error (.select e)
          | .ok selected =>
            let childHex := env.signChildHex selected.inputs
              (env.anchorAmount + selected.changeAmount)
            let _ := env.broadcastPackage parent.hex childHex
            .ok (parent.hex, childHex)

/-! ## The unroll session state machine -/

/-- Node type of a VTXO ancestry chain. -/
inductive ChainTxType where
  | COMMITMENT : ChainTxType
  | TREE : ChainTxType
  | ARK : ChainTxType
  | CHECKPOINT : ChainTxType
  | UNSPECIFIED : ChainTxType
deriving Repr, DecidableEq

/-- One node of a VTXO ancestry chain, ordered leaf (index 0) to root. -/
structure ChainTx where
  txid : String
  type : ChainTxType
deriving Repr, DecidableEq

/-- Nodes the scan skips: commitment transactions (and unspecified nodes)
are always on-chain. -/
def ChainTx.skippable (c : ChainTx) : Bool :=
  match c.type with
  | .COMMITMENT => true
  | .UNSPECIFIED => true
  | _ => false

/-- Outcome of the scan loop of `Session.next`: an unconfirmed node to wait
for, a broadcast candidate, or exhaustion with every probed node
confirmed. -/
inductive ScanOutcome where
  | wait (txid : String) : ScanOutcome
  | candidate (node : ChainTx) : ScanOutcome
  | finished : ScanOutcome
deriving Repr, DecidableEq

/-- The scan loop of `Session.next`, applied to the chain in scan order
(root first). A skippable node is passed over; otherwise the explorer is
probed: a confirmed node continues the scan, an unconfirmed one returns the
WAIT step, and the `catch` around the probe turns ANY probe failure into
the broadcast candidate and breaks. -/
def scanChain (getStatus : String → Except ProviderError TxStatus) :
    List ChainTx → ScanOutcome
  | [] => .finished
  | c :: rest =>
    if c.skippable then scanChain getStatus rest
    else
      match getStatus c.txid with
      | .ok info => if info.confirmed then scanChain getStatus rest else .wait c.txid
      | .error _ => .candidate c

/-- Errors `Session.next` can raise after the scan. -/
inductive NextError where
  | provider (e : ProviderError)
  | virtualTxNotFound (txid : String)
  | inputNotFound
  | tapKeySigNotFound
  | bump (e : WalletError)
deriving Repr, DecidableEq

/-- The collaborators of an unroll session: the explorer's status probe,
the indexer's virtual-transaction fetch, the external PSBT decoder, and
the anchor bumper. -/
structure UnrollEnv where
  getTxStatus : String → Except ProviderError TxStatus
  getVirtualTxs : String → Except ProviderError (List String)
  fromPSBT : String → Tx
  bumpP2A : Tx → Except WalletError (String × String)

/-- A step of the unroll protocol (without its attached `do` action). -/
inductive Step where
  | unroll (tx : Tx) (pkg : String × String) : Step
  | wait (txid : String) : Step
  | done (vtxoTxid : String) : Step
deriving Repr, DecidableEq

/-- Finalization of the broadcast candidate before bumping: a TREE node has
the stored key signature of its first input installed as the final witness
(failing when input 0 or the signature is missing); any other node gets
generic finalization. -/
def finalizeCandidate (node : ChainTx) (tx : Tx) : Except NextError Tx :=
  if node.type = ChainTxType.TREE then
    match tx.inputs.head? with
    | none => .error .inputNotFound
    | some inp =>
      match inp.tapKeySig with
      | none => .error .tapKeySigNotFound
      | some sig => .ok { tx with finalScriptWitness0 := some [sig] }
  else .ok tx.finalize

/-- The post-scan branch of `Session.next` for a broadcast candidate: fetch
the virtual transaction (fail when the indexer returns none), decode it,
finalize its witness and delegate to the bumper. -/
def buildUnrollStep (env : UnrollEnv) (node : ChainTx) : Except NextError Step :=
  match env.getVirtualTxs node.txid with
  | .error e => .error (.provider e)
  | .ok [] => .error (.virtualTxNotFound node.txid)
  | .ok (psbt :: _) =>
    match finalizeCandidate node (env.fromPSBT psbt) with
    | .error e => .error e
    | .ok tx2 =>
      match env.bumpP2A tx2 with
      | .error e => .error (.bump e)
      | .ok pkg => .ok (.unroll tx2 pkg)

/-- `Session.next()`: scan the immutable chain from the root (the end of
the list) toward the leaf, then emit WAIT, DONE (carrying the session's
original outpoint txid), or build the UNROLL step for the candidate. -/
def Session.next (env : UnrollEnv) (toUnrollTxid : String) (chain : List ChainTx) :
    Except NextError Step :=
  match scanChain env.getTxStatus chain.reverse with
  | .wait t => .ok (.wait t)
  | .finished => .ok (.done toUnrollTxid)
  | .candidate node => buildUnrollStep env node

/-- The nodes the scan actually probes, in scan order. -/
def keepNodes (l : List ChainTx) : List ChainTx :=
  l.filter (fun c => !c.skippable)

/-- The probe of a node found on-chain and confirmed. -/
def probeConfirmed (getStatus : String → Except ProviderError TxStatus)
    (c : ChainTx) : Prop :=
  ∃ s, getStatus c.txid = .ok s ∧ s.confirmed = true

/-- The probe of a node found on-chain but not confirmed. -/
def probeUnconfirmed (getStatus : String → Except ProviderError TxStatus)
    (c : ChainTx) : Prop :=
  ∃ s, getStatus c.txid = .ok s ∧ s.confirmed = false

/-! ## Exit paths and the unroll-completion transaction -/

/-- One timelocked exit path of a VTXO's tap tree, as the external script
library decodes it: the timelock's denomination (`"blocks"` or time), its
value, and the leaf script the path spends. -/
structure ExitPath where
  isBlocks : Bool
  lockValue : Nat
  script : List Nat
deriving Repr, DecidableEq

/-- `availableExitPath(confirmedAt, current, vtxo)`: walk the decoded exit
paths in declared order and return the first whose relative timelock has
matured — `current.height >= confirmedAt.height + value` for
block-denominated locks, `current.time >= confirmedAt.time + value`
otherwise — or none. The embedding receives the decoded path list in place
of the vtxo's encoded tap tree. -/
def availableExitPath (confirmedAt current : BlockTime) :
    List ExitPath → Option ExitPath
  | [] => none
  | e :: rest =>
    if e.isBlocks then
      if confirmedAt.height + e.lockValue ≤ current.height then some e
      else availableExitPath confirmedAt current rest
    else
      if confirmedAt.time + e.lockValue ≤ current.time then some e
      else availableExitPath confirmedAt current rest

/-- Spec-side maturity test of one exit path, exactly as §4.5 words it. -/
def exitPathMatured (confirmedAt current : BlockTime) (e : ExitPath) : Bool :=
  if e.isBlocks then confirmedAt.height + e.lockValue ≤ current.height
  else confirmedAt.time + e.lockValue ≤ current.time

/-- The spending leaf the script library finds for an exit path: the byte
lengths its estimator entry consumes. -/
structure LeafInfo where
  scriptLen : Nat
  controlBlockLen : Nat
deriving Repr, DecidableEq

/-- A VTXO as `prepareUnrollTransaction` consumes it: identity, value, the
unrolled mark, and its decoded tap tree (exit paths and leaf lookup). -/
structure Vtxo where
  txid : String
  vout : Nat
  value : Nat
  isUnrolled : Bool
  exitPaths : List ExitPath
  findLeaf : List Nat → Option LeafInfo

/-- The collaborators of `prepareUnrollTransaction`. -/
structure PrepareEnv where
  getChainTip : Except ProviderError BlockTime
  getVtxos : Except ProviderError (List Vtxo)
  getTxStatus : String → Except ProviderError TxStatus
  getFeeRate : Except ProviderError (Option Rat)

/-- The built unroll-completion transaction: its inputs (txid, vout) and
its outputs (address, amount). -/
structure PreparedTx where
  inputs : List (String × Nat)
  outputs : List (String × Int)
deriving Repr, DecidableEq

/-- The per-VTXO pass of `prepareUnrollTransaction`: check unrolled,
confirmed, a matured exit path and a spending leaf; accumulate the total
amount, the tapscript estimator entries (64-byte witness, leaf script and
control block lengths) and the transaction inputs. -/
def accumVtxos (getStatus : String → Except ProviderError TxStatus)
    (chainTip : BlockTime) :
    List Vtxo → Nat → TxWeightEstimator → List (String × Nat) →
    Except WalletError (Nat × TxWeightEstimator × List (String × Nat))
  | [], total, est, acc => .ok (total, est, acc)
  | v :: rest, total, est, acc =>
    if v.isUnrolled = false then .error (.vtxoNotUnrolled v.txid)
    else
      match getStatus v.txid with
      | .error e => .error (.provider e)
      | .ok st =>
        if st.confirmed = false then .error (.txNotConfirmed v.txid)
        else
          match availableExitPath { height := st.blockHeight, time := st.blockTime }
              chainTip v.exitPaths with
          | none => .error (.noExitPath v.txid)
          | some exit =>
            match v.findLeaf exit.script with
            | none => .error (.leafNotFound v.txid)
            | some leaf =>
              accumVtxos getStatus chainTip rest (total + v.value)
                (est.addTapscriptInput 64 leaf.scriptLen leaf.controlBlockLen)
                (acc ++ [(v.txid, v.vout)])

/-- `prepareUnrollTransaction(wallet, vtxoTxIds, outputAddress)`: filter the
wallet's VTXOs to the requested txids (fail when none is left), run the
per-VTXO pass, add the single P2TR output to the estimator, floor the fee
rate, price the transaction (`fee(BigInt(feeRate))` is a RangeError when
the floored rate is not an integer), fail when the fee exceeds the total,
and build the transaction paying `totalAmount - feeAmount` to the output
address. Signing and finalization by the external identity leave the
modelled fields unchanged. -/
def prepareUnrollTransaction (env : PrepareEnv) (vtxoTxIds : List String)
    (outputAddress : String) : Except WalletError PreparedTx :=
  match env.getChainTip with
  | .error e => .error (.provider e)
  | .ok chainTip =>
    match env.getVtxos with
    | .error e => .error (.provider e)
    | .ok allVtxos =>
      let vtxos := allVtxos.filter (fun v => vtxoTxIds.contains v.txid)
      if vtxos.isEmpty then .error .noVtxosToUnroll
      else
        match accumVtxos env.getTxStatus chainTip vtxos 0 TxWeightEstimator.create [] with
        | .error e => .error e
        | .ok (totalAmount, est, inputs) =>
          let est2 := est.addP2TROutput
          match env.getFeeRate with
          | .error e => .error (.provider e)
          | .ok r =>
            let feeRate := effectiveFeeRate r
            if feeRate.den ≠ 1 then .error .feeRateNotInteger
            else
              let feeAmount := est2.feeOf feeRate.num
              if (totalAmount : Int) < feeAmount then .error .feeExceedsTotal
              else
                .ok { inputs := inputs,
                      outputs := [(outputAddress, (totalAmount : Int) - feeAmount)] }

/-! ## Sample data used by witnesses and counterexamples -/

/-- A confirmed coin worth 5 satoshis. -/
def coinFive : Coin :=
  { txid := "c5", vout := 0, value := 5,
    status := { confirmed := true, blockHeight := none, blockHash := none,
                blockTime := none } }

/-- A confirmed coin worth 2 satoshis. -/
def coinTwo : Coin :=
  { txid := "c2", vout := 0, value := 2,
    status := { confirmed := true, blockHeight := none, blockHash := none,
                blockTime := none } }

/-- A confirmed coin worth 50000 satoshis. -/
def coinBig : Coin :=
  { txid := "cb", vout := 0, value := 50000,
    status := { confirmed := true, blockHeight := none, blockHash := none,
                blockTime := none } }

/-- An ARK-typed chain node. -/
def arkNode : ChainTx := { txid := "t0", type := .ARK }

/-- A parent transaction carrying an anchor output. -/
def parentTx : Tx :=
  { hex := "parenthex", vsize := 100, inputs := [], hasP2AOutput := true,
    finalScriptWitness0 := none, finalized := false }

/-- A sample decoded transaction for the unroll branch. -/
def txA : Tx :=
  { hex := "aa", vsize := 100, inputs := [], hasP2AOutput := true,
    finalScriptWitness0 := none, finalized := false }

/-- A session environment whose status probe always fails with a network
error (not a not-found signal) and whose other collaborators succeed. -/
def netErrEnv : UnrollEnv :=
  { getTxStatus := fun _ => .error (.network "connection reset"),
    getVirtualTxs := fun _ => .ok ["psbt0"],
    fromPSBT := fun _ => txA,
    bumpP2A := fun t => .ok (t.hex, "childhex") }

/-- A wallet environment whose package broadcast always fails. -/
def bumpFailEnv : WalletEnv :=
  { getFeeRate := .ok (some 2),
    getCoins := .ok [coinBig],
    broadcastPackage := fun _ _ => .error (.network "broadcast refused"),
    signChildHex := fun _ _ => "childhex",
    addressScriptLen := 34,
    anchorAmount := 0 }

/-- A block-denominated exit path of 144 blocks. -/
def exitBlocks : ExitPath := { isBlocks := true, lockValue := 144, script := [1] }

/-- The spending leaf the sample vtxo's tap tree yields. -/
def leafA : LeafInfo := { scriptLen := 40, controlBlockLen := 33 }

/-- A fully unrolled sample VTXO worth 10000 satoshis. -/
def vtxoA : Vtxo :=
  { txid := "v0", vout := 0, value := 10000, isUnrolled := true,
    exitPaths := [exitBlocks],
    findLeaf := fun s => if s = [1] then some leafA else none }

/-- A prepare environment for the sample VTXO: confirmed at height 100 and
time 1000, tip at height 300 and time 2000, fee rate 2 sat/vbyte. -/
def prepEnvA : PrepareEnv :=
  { getChainTip := .ok { height := 300, time := 2000 },
    getVtxos := .ok [vtxoA],
    getTxStatus := fun _ => .ok { confirmed := true, blockHeight := 100,
                                  blockTime := 1000 },
    getFeeRate := .ok (some 2) }

/-! ## Lemmas about the selection loop -/

theorem coinSum_nil : coinSum [] = 0 := rfl

theorem coinSum_cons (c : Coin) (l : List Coin) :
    coinSum (c :: l) = c.value + coinSum l := by
  simp [coinSum]

theorem coinSum_append (l1 l2 : List Coin) :
    coinSum (l1 ++ l2) = coinSum l1 + coinSum l2 := by
  simp [coinSum]

/-- The loop never accumulates more than the coins it was offered. -/
theorem selectLoop_snd_le (force : Bool) (t : Rat) (l sel : List Coin) (sum : Nat) :
    (selectLoop force t l sel sum).2 ≤ sum + coinSum l := by
  induction l generalizing sel sum with
  | nil => simp [selectLoop, coinSum]
  | cons c rest ih =>
    rw [coinSum_cons]
    simp only [selectLoop]
    split
    · split
      · dsimp only
        omega
      · have := ih (sel ++ [c]) (sum + c.value)
        omega
    · split
      · dsimp only
        omega
      · have := ih (sel ++ [c]) (sum + c.value)
        omega

/-- When the target is within reach, the loop ends at or above it. -/
theorem selectLoop_reaches (force : Bool) (t : Rat) (l sel : List Coin) (sum : Nat)
    (h : t ≤ ((sum + coinSum l : Nat) : Rat)) :
    t ≤ (((selectLoop force t l sel sum).2 : Nat) : Rat) := by
  induction l generalizing sel sum with
  | nil =>
    rw [coinSum_nil] at h
    simpa [selectLoop] using h
  | cons c rest ih =>
    have harr : sum + coinSum (c :: rest) = (sum + c.value) + coinSum rest := by
      rw [coinSum_cons]; omega
    rw [harr] at h
    simp only [selectLoop]
    split
    · split
      · rename_i hstop
        dsimp only
        exact le_of_lt hstop
      · exact ih (sel ++ [c]) (sum + c.value) h
    · split
      · rename_i hstop
        dsimp only
        exact hstop
      · exact ih (sel ++ [c]) (sum + c.value) h

/-- With `forceChange`, a target strictly below the offered total is
strictly exceeded. -/
theorem selectLoop_exceeds (t : Rat) (l sel : List Coin) (sum : Nat)
    (h : t < ((sum + coinSum l : Nat) : Rat)) :
    t < (((selectLoop true t l sel sum).2 : Nat) : Rat) := by
  induction l generalizing sel sum with
  | nil =>
    rw [coinSum_nil] at h
    simpa [selectLoop] using h
  | cons c rest ih =>
    have harr : sum + coinSum (c :: rest) = (sum + c.value) + coinSum rest := by
      rw [coinSum_cons]; omega
    rw [harr] at h
    simp only [selectLoop]
    split
    · split
      · rename_i hstop
        dsimp only
        exact hstop
      · exact ih (sel ++ [c]) (sum + c.value) h
    · rename_i hfalse
      exact absurd trivial hfalse

/-- The accumulated sum is the value of the accumulated inputs. -/
theorem selectLoop_inputs_sum (force : Bool) (t : Rat) (l sel : List Coin) (sum : Nat)
    (h : coinSum sel = sum) :
    coinSum (selectLoop force t l sel sum).1 = (selectLoop force t l sel sum).2 := by
  induction l generalizing sel sum with
  | nil => simpa [selectLoop] using h
  | cons c rest ih =>
    have hstep : coinSum (sel ++ [c]) = sum + c.value := by
      rw [coinSum_append, h, coinSum_cons, coinSum_nil]
      omega
    simp only [selectLoop]
    split
    · split
      · dsimp only
        exact hstep
      · exact ih (sel ++ [c]) (sum + c.value) hstep
    · split
      · dsimp only
        exact hstep
      · exact ih (sel ++ [c]) (sum + c.value) hstep

/-- Sorting does not change the total value. -/
theorem coinSum_sortByValueDesc (coins : List Coin) :
    coinSum (sortByValueDesc coins) = coinSum coins := by
  unfold coinSum sortByValueDesc
  exact ((List.perm_insertionSort _ coins).map Coin.value).sum_eq

/-- Core correctness of `selectCoins` at natural-number targets within the
total: success, covering sum, exact change accounting, and strict coverage
under `forceChange` away from the boundary targets. -/
theorem selectCoins_nat_ok (coins : List Coin) (n : Nat) (force : Bool)
    (h : n ≤ coinSum coins) :
    ∃ sel, selectCoins coins (.num n) force = .ok sel ∧
      n ≤ coinSum sel.inputs ∧
      sel.changeAmount = (coinSum sel.inputs : Int) - (n : Int) ∧
      (force = true → 0 < n → n < coinSum coins →
        n < coinSum sel.inputs ∧ 0 < sel.changeAmount) := by
  rcases Nat.eq_zero_or_pos n with h0 | hpos
  · subst h0
    refine ⟨⟨[], 0⟩, by simp [selectCoins], by simp [coinSum], by simp [coinSum], ?_⟩
    intro _ hcon
    exact absurd hcon (lt_irrefl 0)
  · have hnneg : ¬ ((n : Rat) < 0) := not_lt.mpr (by positivity)
    have hne0 : ¬ ((n : Rat) = 0) := by
      exact_mod_cast hpos.ne'
    have hmain : selectCoins coins (.num n) force =
        (let r := selectLoop force (n : Rat) (sortByValueDesc coins) [] 0
         if (r.2 : Rat) = (n : Rat) then
           Except.ok { inputs := r.1, changeAmount := 0 }
         else if (r.2 : Rat) < (n : Rat) then Except.error .insufficientFunds
         else
           let diff : Rat := (r.2 : Rat) - (n : Rat)
           if diff.den = 1 then Except.ok { inputs := r.1, changeAmount := diff.num }
           else Except.error .bigIntRangeError) := by
      simp only [selectCoins]
      rw [if_neg hnneg, if_neg hne0]
    set r := selectLoop force (n : Rat) (sortByValueDesc coins) [] 0 with hr
    have hinsum : coinSum r.1 = r.2 :=
      selectLoop_inputs_sum force (n : Rat) (sortByValueDesc coins) [] 0 rfl
    have hreach : (n : Rat) ≤ ((r.2 : Nat) : Rat) := by
      apply selectLoop_reaches
      rw [Nat.zero_add, coinSum_sortByValueDesc]
      exact_mod_cast h
    have hle : n ≤ r.2 := by exact_mod_cast hreach
    rcases eq_or_lt_of_le hle with heq | hgt
    · have heqq : ((r.2 : Nat) : Rat) = (n : Rat) := by exact_mod_cast heq.symm
      refine ⟨⟨r.1, 0⟩, ?_, ?_, ?_, ?_⟩
      · rw [hmain]
        simp only
        rw [if_pos heqq]
      · dsimp only
        omega
      · dsimp only
        omega
      · intro hf hn hlt
        exfalso
        subst hf
        have hstrict : (n : Rat) < ((r.2 : Nat) : Rat) := by
          apply selectLoop_exceeds
          rw [Nat.zero_add, coinSum_sortByValueDesc]
          exact_mod_cast hlt
        rw [heqq] at hstrict
        exact lt_irrefl _ hstrict
    · have hneq : ¬ (((r.2 : Nat) : Rat) = (n : Rat)) := by
        intro hc
        have : r.2 = n := by exact_mod_cast hc
        omega
      have hnlt : ¬ (((r.2 : Nat) : Rat) < (n : Rat)) := not_lt.mpr hreach
      have hdiff : ((r.2 : Nat) : Rat) - (n : Rat) = ((r.2 - n : Nat) : Rat) := by
        push_cast [hle]
        ring
      refine ⟨⟨r.1, ((r.2 - n : Nat) : Int)⟩, ?_, ?_, ?_, ?_⟩
      · rw [hmain]
        simp only
        rw [if_neg hneq, if_neg hnlt, hdiff]
        simp [Rat.den_natCast, Rat.num_natCast]
      · dsimp only
        omega
      · dsimp only
        omega
      · intro _ _ _
        constructor
        · dsimp only
          omega
        · dsimp only
          omega

/-! ## C3 -/

/-- C3 (amended): for every coin list and natural target within the summed
coin values, `selectCoins` succeeds with inputs summing to at least the
target and `changeAmount = sum(inputs) - target`; when `forceChange` is set
the sum is strictly greater and the change non-zero provided the target is
strictly between 0 and the total (at the boundary targets the stopping rule
accepts equality and the change is zero). -/
theorem selectCoins_covers_target (coins : List Coin) (n : Nat) (force : Bool)
    (h : n ≤ coinSum coins) :
    ∃ sel, selectCoins coins (.num n) force = .ok sel ∧
      n ≤ coinSum sel.inputs ∧
      sel.changeAmount = (coinSum sel.inputs : Int) - (n : Int) ∧
      (force = true → 0 < n → n < coinSum coins →
        n < coinSum sel.inputs ∧ 0 < sel.changeAmount) :=
  selectCoins_nat_ok coins n force h

/-- Witness for C3: one coin of value 5, target 3, `forceChange` set. -/
theorem selectCoins_covers_target_witness :
    3 ≤ coinSum [coinFive] ∧
    (∃ sel, selectCoins [coinFive] (.num ((3 : Nat) : Rat)) true = .ok sel ∧
      3 ≤ coinSum sel.inputs ∧
      sel.changeAmount = (coinSum sel.inputs : Int) - ((3 : Nat) : Int) ∧
      (true = true → 0 < 3 → 3 < coinSum [coinFive] →
        3 < coinSum sel.inputs ∧ 0 < sel.changeAmount)) :=
  ⟨by decide, selectCoins_covers_target [coinFive] 3 true (by decide)⟩

/-- Counterexample to C3 as stated: with `forceChange` set and the target
equal to the summed coin values (which the claim admits, `0 <= target <=
sum`), the selection's sum equals the target and the change is zero — not
strictly greater, not non-zero. -/
theorem selectCoins_forceChange_boundary :
    selectCoins [coinTwo] (.num ((2 : Nat) : Rat)) true =
      .ok { inputs := [coinTwo], changeAmount := 0 } ∧
    coinSum [coinTwo] = 2 := by
  constructor
  · rfl
  · rfl

/-! ## C9 -/

/-- C9 (amended): `selectCoins` fails with an invalid-amount error whenever
the target is NaN or negative (not for every non-integer target); target 0
returns empty inputs and zero change; a natural target exceeding the summed
coin values fails with insufficient funds; and a natural target within the
sum does not throw. -/
theorem selectCoins_error_cases (coins : List Coin) (force : Bool) :
    selectCoins coins .nan force = .error .invalidAmountNaN ∧
    (∀ t : Rat, t < 0 →
      selectCoins coins (.num t) force = .error .invalidAmountNegative) ∧
    selectCoins coins (.num 0) force = .ok { inputs := [], changeAmount := 0 } ∧
    (∀ n : Nat, coinSum coins < n →
      selectCoins coins (.num n) force = .error .insufficientFunds) ∧
    (∀ n : Nat, n ≤ coinSum coins →
      ∃ sel, selectCoins coins (.num n) force = .ok sel) := by
  refine ⟨rfl, ?_, by simp [selectCoins], ?_, ?_⟩
  · intro t ht
    simp only [selectCoins]
    rw [if_pos ht]
  · intro n hn
    have hpos : 0 < n := lt_of_le_of_lt (Nat.zero_le _) hn
    have hnneg : ¬ ((n : Rat) < 0) := not_lt.mpr (by positivity)
    have hne0 : ¬ ((n : Rat) = 0) := by exact_mod_cast hpos.ne'
    set r := selectLoop force (n : Rat) (sortByValueDesc coins) [] 0 with hr
    have hle : r.2 ≤ coinSum coins := by
      have := selectLoop_snd_le force (n : Rat) (sortByValueDesc coins) [] 0
      rw [Nat.zero_add, coinSum_sortByValueDesc] at this
      exact this
    have hlt : r.2 < n := lt_of_le_of_lt hle hn
    have hneq : ¬ (((r.2 : Nat) : Rat) = (n : Rat)) := by
      intro hc
      have : r.2 = n := by exact_mod_cast hc
      omega
    have hltq : ((r.2 : Nat) : Rat) < (n : Rat) := by exact_mod_cast hlt
    simp only [selectCoins]
    rw [if_neg hnneg, if_neg hne0]
    rw [if_neg hneq, if_pos hltq]
  · intro n hn
    obtain ⟨sel, hsel, -⟩ := selectCoins_nat_ok coins n force hn
    exact ⟨sel, hsel⟩

/-- Counterexample to C9 as stated: the finite non-integer target 3/2 is
"not a finite integer", yet `selectCoins` fails with the insufficient-funds
error, not an invalid-amount error. -/
theorem selectCoins_fractional_target_not_invalidAmount :
    selectCoins [] (.num (3/2)) false = .error .insufficientFunds ∧
    SelectError.isInvalidAmount .insufficientFunds = false := by
  constructor
  · simp only [selectCoins, sortByValueDesc, List.insertionSort, selectLoop]
    norm_num
  · rfl

/-! ## Estimator lemmas -/

/-- Compact-size length is monotone. -/
theorem getVarIntSize_mono {m n : Nat} (h : m ≤ n) :
    getVarIntSize m ≤ getVarIntSize n := by
  unfold getVarIntSize
  split_ifs <;> omega

/-- The accumulator fields after a sequence of operations, relative to any
starting state. -/
theorem foldl_applyOp_fields (ops : List EstimatorOp) (e : TxWeightEstimator) :
    (ops.foldl applyOp e).inputCount = e.inputCount + ops.countP opIsInput ∧
    (ops.foldl applyOp e).outputCount
      = e.outputCount + ops.countP (fun o => !opIsInput o) ∧
    (ops.foldl applyOp e).inputSize
      = e.inputSize + (ops.map opNonWitnessInputCost).sum ∧
    (ops.foldl applyOp e).outputSize = e.outputSize + (ops.map opOutputCost).sum ∧
    (ops.foldl applyOp e).inputWitnessSize
      = e.inputWitnessSize + (ops.map opWitnessBytes).sum ∧
    (ops.foldl applyOp e).hasWitness = (e.hasWitness || ops.any opMarksWitness) := by
  induction ops generalizing e with
  | nil => simp
  | cons op rest ih =>
    simp only [List.foldl_cons, List.countP_cons, List.map_cons, List.sum_cons,
      List.any_cons]
    obtain ⟨h1, h2, h3, h4, h5, h6⟩ := ih (applyOp e op)
    rw [h1, h2, h3, h4, h5, h6]
    cases op <;>
      dsimp only [applyOp, TxWeightEstimator.addP2AInput,
        TxWeightEstimator.addKeySpendInput, TxWeightEstimator.addP2PKHInput,
        TxWeightEstimator.addTapscriptInput, TxWeightEstimator.addOutputScript,
        opIsInput, opNonWitnessInputCost, opOutputCost, opWitnessBytes,
        opMarksWitness, TxWeightEstimator.INPUT_SIZE,
        TxWeightEstimator.P2PKH_SCRIPT_SIG_SIZE,
        TxWeightEstimator.BASE_CONTROL_BLOCK_SIZE] <;>
      refine ⟨?_, ?_, ?_, ?_, ?_, ?_⟩ <;>
      first
        | omega
        | (simp; omega)
        | simp

/-- Rounding up a quarter: `Math.ceil(w / 4)` agrees with the natural
computation `(w + 3) / 4`. -/
theorem ceil_div_four (w : Nat) :
    ⌈(w : Rat) / 4⌉ = (((w + 3) / 4 : Nat) : Int) := by
  have h1 : w ≤ 4 * ((w + 3) / 4) := by omega
  have h2 : 4 * ((w + 3) / 4) ≤ w + 3 := by omega
  have h1q : (w : Rat) ≤ 4 * (((w + 3) / 4 : Nat) : Rat) := by exact_mod_cast h1
  have h2q : 4 * (((w + 3) / 4 : Nat) : Rat) ≤ (w : Rat) + 3 := by exact_mod_cast h2
  rw [Int.ceil_eq_iff, Int.cast_natCast]
  constructor
  · rw [lt_div_iff₀ (by norm_num : (0 : Rat) < 4)]
    linarith
  · rw [div_le_iff₀ (by norm_num : (0 : Rat) < 4)]
    linarith

/-- The accumulated weight equals the spec-side weight formula. -/
theorem applyOps_weight (ops : List EstimatorOp) :
    (applyOps ops).weight = specWeight ops := by
  obtain ⟨h1, h2, h3, h4, h5, h6⟩ := foldl_applyOp_fields ops TxWeightEstimator.create
  have hc : applyOps ops = ops.foldl applyOp TxWeightEstimator.create := rfl
  rw [TxWeightEstimator.weight, TxWeightEstimator.strippedSize, specWeight,
    specStrippedSize, hc, h1, h2, h3, h4, h5, h6]
  simp [TxWeightEstimator.create, TxWeightEstimator.BASE_TX_SIZE,
    TxWeightEstimator.WITNESS_HEADER_SIZE, TxWeightEstimator.WITNESS_SCALE_FACTOR]

/-! ## C7 -/

/-- C7: for every sequence of add-input/add-output operations and every
rate, `vsize().value` is `ceil(weight / 4)` with
`weight = strippedSize * 4` plus (exactly when some input marked the
witness-present flag) the 2-byte witness header and the accumulated witness
bytes, over base size 10 and per-input non-witness cost 41; and
`fee(rate) = rate * value` exactly. -/
theorem estimator_vsize_fee_formula (ops : List EstimatorOp) (rate : Int) :
    ((applyOps ops).vsizeValue : Int) = ⌈(specWeight ops : Rat) / 4⌉ ∧
    (applyOps ops).feeOf rate = rate * ⌈(specWeight ops : Rat) / 4⌉ := by
  have h1 : ((applyOps ops).vsizeValue : Int) = ⌈(specWeight ops : Rat) / 4⌉ := by
    rw [TxWeightEstimator.vsizeValue, applyOps_weight, ceil_div_four]
  exact ⟨h1, by rw [TxWeightEstimator.feeOf, h1]⟩

/-! ## C8 -/

/-- Weight is monotone in the accumulator fields. -/
theorem weight_mono_fields (e1 e2 : TxWeightEstimator)
    (hic : e1.inputCount ≤ e2.inputCount) (hoc : e1.outputCount ≤ e2.outputCount)
    (his : e1.inputSize ≤ e2.inputSize) (hos : e1.outputSize ≤ e2.outputSize)
    (hws : e1.inputWitnessSize ≤ e2.inputWitnessSize)
    (hw : e1.hasWitness = true → e2.hasWitness = true) :
    e1.weight ≤ e2.weight := by
  have hv1 := getVarIntSize_mono hic
  have hv2 := getVarIntSize_mono hoc
  rw [TxWeightEstimator.weight, TxWeightEstimator.weight,
    TxWeightEstimator.strippedSize, TxWeightEstimator.strippedSize]
  cases h1 : e1.hasWitness <;> cases h2 : e2.hasWitness <;>
    simp_all [TxWeightEstimator.BASE_TX_SIZE, TxWeightEstimator.WITNESS_HEADER_SIZE,
      TxWeightEstimator.WITNESS_SCALE_FACTOR] <;>
    omega

/-- Every single operation can only grow the weight. -/
theorem applyOp_weight_mono (e : TxWeightEstimator) (op : EstimatorOp) :
    e.weight ≤ (applyOp e op).weight := by
  cases op <;>
    refine weight_mono_fields _ _ ?_ ?_ ?_ ?_ ?_ ?_ <;>
    dsimp only [applyOp, TxWeightEstimator.addP2AInput,
      TxWeightEstimator.addKeySpendInput, TxWeightEstimator.addP2PKHInput,
      TxWeightEstimator.addTapscriptInput, TxWeightEstimator.addOutputScript] <;>
    first
      | omega
      | exact id
      | (intro h; rfl)

/-- Adding an output of a longer script adds exactly its extra bytes times
4 to the weight. -/
theorem addOutputScript_weight_diff (e : TxWeightEstimator) :
    (e.addOutputScript p2trScriptLen).weight
      = (e.addOutputScript p2wpkhScriptLen).weight + 48 := by
  have h34 : getVarIntSize 34 = 1 := rfl
  have h22 : getVarIntSize 22 = 1 := rfl
  dsimp only [TxWeightEstimator.addOutputScript, TxWeightEstimator.weight,
    TxWeightEstimator.strippedSize, p2trScriptLen, p2wpkhScriptLen,
    TxWeightEstimator.BASE_TX_SIZE, TxWeightEstimator.WITNESS_HEADER_SIZE,
    TxWeightEstimator.WITNESS_SCALE_FACTOR]
  rw [h34, h22]
  split_ifs <;> omega

/-- C8: the estimator's vsize is monotonically non-decreasing under every
add-input and add-output operation; and from any state, a Taproot (34-byte
script) destination output yields a strictly larger vsize — and a strictly
larger fee at any equal positive rate — than a native-segwit (22-byte
script) destination output. -/
theorem estimator_monotone_taproot_gt_segwit :
    (∀ (e : TxWeightEstimator) (op : EstimatorOp),
      e.vsizeValue ≤ (applyOp e op).vsizeValue) ∧
    (∀ e : TxWeightEstimator,
      (e.addOutputScript p2wpkhScriptLen).vsizeValue
        < (e.addOutputScript p2trScriptLen).vsizeValue) ∧
    (∀ (e : TxWeightEstimator) (rate : Int), 0 < rate →
      (e.addOutputScript p2wpkhScriptLen).feeOf rate
        < (e.addOutputScript p2trScriptLen).feeOf rate) := by
  have hmono : ∀ (e : TxWeightEstimator) (op : EstimatorOp),
      e.vsizeValue ≤ (applyOp e op).vsizeValue := by
    intro e op
    have := applyOp_weight_mono e op
    rw [TxWeightEstimator.vsizeValue, TxWeightEstimator.vsizeValue]
    omega
  have hstrict : ∀ e : TxWeightEstimator,
      (e.addOutputScript p2wpkhScriptLen).vsizeValue
        < (e.addOutputScript p2trScriptLen).vsizeValue := by
    intro e
    have := addOutputScript_weight_diff e
    rw [TxWeightEstimator.vsizeValue, TxWeightEstimator.vsizeValue, this]
    omega
  refine ⟨hmono, hstrict, ?_⟩
  intro e rate hrate
  have h := hstrict e
  rw [TxWeightEstimator.feeOf, TxWeightEstimator.feeOf]
  have hcast : ((e.addOutputScript p2wpkhScriptLen).vsizeValue : Int)
      < ((e.addOutputScript p2trScriptLen).vsizeValue : Int) := by exact_mod_cast h
  exact mul_lt_mul_of_pos_left hcast hrate

/-- Witness for C8: the fee comparison at the fresh estimator and rate 2. -/
theorem estimator_taproot_fee_witness :
    (0 : Int) < 2 ∧
    (TxWeightEstimator.create.addOutputScript p2wpkhScriptLen).feeOf 2
      < (TxWeightEstimator.create.addOutputScript p2trScriptLen).feeOf 2 :=
  ⟨by norm_num,
    estimator_monotone_taproot_gt_segwit.2.2 TxWeightEstimator.create 2 (by norm_num)⟩

/-! ## C4 -/

/-- Folding one key-spend input per list element is the same as folding the
corresponding replicated operation list. -/
theorem foldl_keySpend_replicate (l : List Coin) (e : TxWeightEstimator) :
    l.foldl (fun est _ => est.addKeySpendInput true) e
      = (List.replicate l.length (EstimatorOp.keySpendInput true)).foldl applyOp e := by
  induction l generalizing e with
  | nil => rfl
  | cons c rest ih =>
    simp only [List.foldl_cons, List.length_cons, List.replicate_succ]
    rw [ih]
    rfl

/-- Each iteration of the source loop agrees with the spec-side loop. -/
theorem feeLoop_eq_specLoop (coins : List Coin) (amount feeRate : Rat)
    (rl cl : Nat) : ∀ (fuel : Nat) (fee : Int),
    feeConvergenceLoop coins amount feeRate rl cl fuel fee
      = specPlannerLoop coins amount feeRate rl cl fuel fee := by
  intro fuel
  induction fuel with
  | zero => intro fee; rfl
  | succ n ih =>
    intro fee
    rw [feeConvergenceLoop, specPlannerLoop]
    cases hsel : selectCoins coins (.num (amount + (fee : Rat))) false with
    | error e => rfl
    | ok selected =>
      have hEst : (if (DUST_AMOUNT : Int) ≤ selected.changeAmount then
            ((selected.inputs.foldl (fun est _ => est.addKeySpendInput true)
              TxWeightEstimator.create).addOutputScript rl).addOutputScript cl
          else
            (selected.inputs.foldl (fun est _ => est.addKeySpendInput true)
              TxWeightEstimator.create).addOutputScript rl)
          = specPlannerEstimate selected.inputs.length
              ((DUST_AMOUNT : Int) ≤ selected.changeAmount) rl cl := by
        by_cases hch : (DUST_AMOUNT : Int) ≤ selected.changeAmount <;>
          simp [hch, specPlannerEstimate, applyOps, List.foldl_append,
            List.foldl_cons, List.foldl_nil, applyOp, foldl_keySpend_replicate]
      simp only [hsel]
      rw [hEst]
      split
      · rfl
      · exact ih _

/-- C4: the fee-convergence loop is exactly the SendPlanner of §4.3 — start
at fee 0; select coins for `amount + fee`; estimate with one payment output
plus a change output exactly when the change reaches the dust limit;
`newFee = ceil(vsize * feeRate)`; return the iteration's selection with
`fee = newFee` as soon as `newFee <= fee`; fail with the convergence error
once 10 iterations are exhausted. -/
theorem estimateFees_matches_specPlanner (coins : List Coin)
    (amount feeRate : Rat) (rl cl : Nat) :
    estimateFeesAndSelectCoins coins amount feeRate rl cl
      = specSendPlanner coins amount feeRate rl cl :=
  feeLoop_eq_specLoop coins amount feeRate rl cl 10 0

/-! ## C6 -/

/-- C6: the exit-path resolver returns the first declared path whose
timelock has matured (block locks against the tip height, time locks
against the tip time), and none exactly when no path has matured. -/
theorem availableExitPath_first_matured (confirmedAt current : BlockTime)
    (ps : List ExitPath) :
    availableExitPath confirmedAt current ps
      = ps.find? (exitPathMatured confirmedAt current) ∧
    (availableExitPath confirmedAt current ps = none ↔
      ∀ e ∈ ps, ¬ exitPathMatured confirmedAt current e = true) := by
  have h : ∀ l : List ExitPath, availableExitPath confirmedAt current l
      = l.find? (exitPathMatured confirmedAt current) := by
    intro l
    induction l with
    | nil => rfl
    | cons e rest ih =>
      cases hb : e.isBlocks with
      | true =>
        by_cases hc : confirmedAt.height + e.lockValue ≤ current.height
        · have hm : exitPathMatured confirmedAt current e = true := by
            simp [exitPathMatured, hb, hc]
          rw [availableExitPath, List.find?_cons_of_pos _ hm]
          simp [hb, hc]
        · have hm : ¬ exitPathMatured confirmedAt current e = true := by
            simp [exitPathMatured, hb, hc]
          rw [availableExitPath, List.find?_cons_of_neg _ hm]
          simp [hb, hc, ih]
      | false =>
        by_cases hc : confirmedAt.time + e.lockValue ≤ current.time
        · have hm : exitPathMatured confirmedAt current e = true := by
            simp [exitPathMatured, hb, hc]
          rw [availableExitPath, List.find?_cons_of_pos _ hm]
          simp [hb, hc]
        · have hm : ¬ exitPathMatured confirmedAt current e = true := by
            simp [exitPathMatured, hb, hc]
          rw [availableExitPath, List.find?_cons_of_neg _ hm]
          simp [hb, hc, ih]
  refine ⟨h ps, ?_⟩
  rw [h ps]
  exact List.find?_eq_none

/-! ## Scan-loop lemmas -/

theorem keepNodes_cons_skip {c : ChainTx} (hs : c.skippable = true)
    (l : List ChainTx) : keepNodes (c :: l) = keepNodes l := by
  simp [keepNodes, List.filter_cons, hs]

theorem keepNodes_cons_keep {c : ChainTx} (hs : c.skippable = false)
    (l : List ChainTx) : keepNodes (c :: l) = c :: keepNodes l := by
  simp [keepNodes, List.filter_cons, hs]

theorem scanChain_cons_skip (st : String → Except ProviderError TxStatus)
    {c : ChainTx} (hs : c.skippable = true) (l : List ChainTx) :
    scanChain st (c :: l) = scanChain st l := by
  simp [scanChain, hs]

/-- The scan result only depends on the non-skippable nodes. -/
theorem scanChain_skippable (st : String → Except ProviderError TxStatus)
    (l : List ChainTx) : scanChain st l = scanChain st (keepNodes l) := by
  induction l with
  | nil => rfl
  | cons c rest ih =>
    cases hs : c.skippable with
    | true => rw [scanChain_cons_skip st hs, keepNodes_cons_skip hs, ih]
    | false =>
      rw [keepNodes_cons_keep hs]
      rw [scanChain, scanChain, if_neg (by simp [hs]), if_neg (by simp [hs])]
      cases hst : st c.txid with
      | error e => rfl
      | ok info =>
        dsimp only
        cases hc : info.confirmed with
        | true => rw [if_pos rfl, if_pos rfl, ih]
        | false => rw [if_neg (by simp), if_neg (by simp)]

/-- The scan finishes exactly when every probed node is confirmed. -/
theorem scanChain_finished_iff (st : String → Except ProviderError TxStatus)
    (l : List ChainTx) :
    scanChain st l = .finished ↔ ∀ c ∈ keepNodes l, probeConfirmed st c := by
  induction l with
  | nil => simp [scanChain, keepNodes]
  | cons c rest ih =>
    cases hs : c.skippable with
    | true => rw [scanChain_cons_skip st hs, keepNodes_cons_skip hs]; exact ih
    | false =>
      rw [keepNodes_cons_keep hs, scanChain, if_neg (by simp [hs])]
      cases hst : st c.txid with
      | error e =>
        constructor
        · intro hcon
          exact ScanOutcome.noConfusion hcon
        · intro hall
          obtain ⟨s, hs1, -⟩ := hall c (List.mem_cons_self c _)
          rw [hst] at hs1
          exact Except.noConfusion hs1
      | ok info =>
        dsimp only
        cases hc : info.confirmed with
        | true =>
          rw [if_pos rfl, ih]
          constructor
          · intro hall m hm
            rcases List.mem_cons.mp hm with rfl | hm2
            · exact ⟨info, hst, hc⟩
            · exact hall m hm2
          · intro hall m hm
            exact hall m (List.mem_cons_of_mem _ hm)
        | false =>
          rw [if_neg (by simp)]
          constructor
          · intro hcon
            exact ScanOutcome.noConfusion hcon
          · intro hall
            obtain ⟨s, hs1, hs2⟩ := hall c (List.mem_cons_self c _)
            rw [hst] at hs1
            injection hs1 with hss
            subst hss
            rw [hc] at hs2
            exact Bool.noConfusion hs2

/-- The scan emits WAIT for exactly the first probed node found on-chain
but unconfirmed, every probed node before it being confirmed. -/
theorem scanChain_wait_iff (st : String → Except ProviderError TxStatus)
    (l : List ChainTx) (t : String) :
    scanChain st l = .wait t ↔
      ∃ pre c post, keepNodes l = pre ++ c :: post ∧
        (∀ m ∈ pre, probeConfirmed st m) ∧ probeUnconfirmed st c ∧ t = c.txid := by
  induction l with
  | nil =>
    simp only [scanChain, keepNodes, List.filter_nil]
    constructor
    · intro hcon
      exact ScanOutcome.noConfusion hcon
    · rintro ⟨pre, c, post, hsplit, -⟩
      exact absurd hsplit.symm (List.append_ne_nil_of_right_ne_nil _ (by simp))
  | cons a rest ih =>
    cases hs : a.skippable with
    | true => rw [scanChain_cons_skip st hs, keepNodes_cons_skip hs]; exact ih
    | false =>
      rw [keepNodes_cons_keep hs, scanChain, if_neg (by simp [hs])]
      cases hst : st a.txid with
      | error e =>
        constructor
        · intro hcon
          exact ScanOutcome.noConfusion hcon
        · rintro ⟨pre, c, post, hsplit, hpre, ⟨s, hs1, -⟩, -⟩
          cases pre with
          | nil =>
            simp only [List.nil_append] at hsplit
            injection hsplit with h1 h2
            subst h1
            rw [hst] at hs1
            exact Except.noConfusion hs1
          | cons p pre2 =>
            simp only [List.cons_append] at hsplit
            injection hsplit with h1 h2
            subst h1
            obtain ⟨s2, hs3, -⟩ := hpre a (List.mem_cons_self a _)
            rw [hst] at hs3
            exact Except.noConfusion hs3
      | ok info =>
        dsimp only
        cases hc : info.confirmed with
        | true =>
          rw [if_pos rfl, ih]
          constructor
          · rintro ⟨pre, c, post, hsplit, hpre, hunc, ht⟩
            refine ⟨a :: pre, c, post, by rw [hsplit, List.cons_append], ?_, hunc, ht⟩
            intro m hm
            rcases List.mem_cons.mp hm with rfl | hm2
            · exact ⟨info, hst, hc⟩
            · exact hpre m hm2
          · rintro ⟨pre, c, post, hsplit, hpre, hunc, ht⟩
            cases pre with
            | nil =>
              simp only [List.nil_append] at hsplit
              injection hsplit with h1 h2
              subst h1
              obtain ⟨s, hs1, hs2⟩ := hunc
              rw [hst] at hs1
              injection hs1 with hss
              subst hss
              rw [hc] at hs2
              exact Bool.noConfusion hs2
            | cons p pre2 =>
              simp only [List.cons_append] at hsplit
              injection hsplit with h1 h2
              subst h1
              exact ⟨pre2, c, post, h2, fun m hm => hpre m (List.mem_cons_of_mem _ hm),
                hunc, ht⟩
        | false =>
          rw [if_neg (by simp)]
          constructor
          · intro hwait
            injection hwait with ht
            exact ⟨[], a, keepNodes rest, rfl, by simp, ⟨info, hst, hc⟩, ht.symm⟩
          · rintro ⟨pre, c, post, hsplit, hpre, hunc, ht⟩
            cases pre with
            | nil =>
              simp only [List.nil_append] at hsplit
              injection hsplit with h1 h2
              subst h1
              rw [ht]
            | cons p pre2 =>
              simp only [List.cons_append] at hsplit
              injection hsplit with h1 h2
              subst h1
              obtain ⟨s, hs1, hs2⟩ := hpre a (List.mem_cons_self a _)
              rw [hst] at hs1
              injection hs1 with hss
              subst hss
              rw [hc] at hs2
              exact Bool.noConfusion hs2

/-- When every probed node before `c` is confirmed and the probe of `c`
fails with ANY error, the scan stops at `c` as the broadcast candidate. -/
theorem scanChain_candidate_of (st : String → Except ProviderError TxStatus) :
    ∀ (l pre : List ChainTx) (c : ChainTx) (post : List ChainTx)
      (e : ProviderError),
    keepNodes l = pre ++ c :: post → (∀ m ∈ pre, probeConfirmed st m) →
    st c.txid = .error e → scanChain st l = .candidate c := by
  intro l
  induction l with
  | nil =>
    intro pre c post e hsplit _ _
    exact absurd hsplit.symm (List.append_ne_nil_of_right_ne_nil _ (by simp))
  | cons a rest ih =>
    intro pre c post e hsplit hpre herr
    cases hs : a.skippable with
    | true =>
      rw [keepNodes_cons_skip hs] at hsplit
      rw [scanChain_cons_skip st hs]
      exact ih pre c post e hsplit hpre herr
    | false =>
      rw [keepNodes_cons_keep hs] at hsplit
      rw [scanChain, if_neg (by simp [hs])]
      cases pre with
      | nil =>
        simp only [List.nil_append] at hsplit
        injection hsplit with h1 h2
        subst h1
        rw [herr]
      | cons p pre2 =>
        simp only [List.cons_append] at hsplit
        injection hsplit with h1 h2
        subst h1
        obtain ⟨s, hs1, hs2⟩ := hpre a (List.mem_cons_self a _)
        rw [hs1]
        dsimp only
        rw [if_pos hs2]
        exact ih pre2 c post e h2 (fun m hm => hpre m (List.mem_cons_of_mem _ hm)) herr

/-- The unroll branch only ever succeeds with an UNROLL step. -/
theorem buildUnrollStep_ok (env : UnrollEnv) (node : ChainTx) (s : Step)
    (h : buildUnrollStep env node = .ok s) : ∃ tx pkg, s = .unroll tx pkg := by
  unfold buildUnrollStep at h
  cases hv : env.getVirtualTxs node.txid with
  | error e =>
    rw [hv] at h
    exact Except.noConfusion h
  | ok txs =>
    rw [hv] at h
    cases txs with
    | nil => exact Except.noConfusion h
    | cons psbt rest2 =>
      dsimp only at h
      cases hf : finalizeCandidate node (env.fromPSBT psbt) with
      | error e =>
        rw [hf] at h
        exact Except.noConfusion h
      | ok tx2 =>
        rw [hf] at h
        dsimp only at h
        cases hb : env.bumpP2A tx2 with
        | error e =>
          rw [hb] at h
          exact Except.noConfusion h
        | ok pkg =>
          rw [hb] at h
          injection h with h2
          exact ⟨tx2, pkg, h2.symm⟩

/-! ## C5 -/

/-- C5: `next()` depends only on the non-skipped (neither COMMITMENT nor
UNSPECIFIED) nodes; it emits WAIT(txid) exactly for the first probed node
in root-to-leaf order that is found on-chain but unconfirmed, with every
earlier probed node confirmed; and it emits DONE with the original
outpoint's txid exactly when every probed node is found confirmed (no
broadcast candidate, no unconfirmed node). -/
theorem session_next_scan_behavior (env : UnrollEnv) (v : String)
    (chain : List ChainTx) :
    Session.next env v chain
      = Session.next env v (chain.filter (fun c => !c.skippable)) ∧
    (∀ t, Session.next env v chain = .ok (.wait t) ↔
      ∃ pre c post, keepNodes chain.reverse = pre ++ c :: post ∧
        (∀ m ∈ pre, probeConfirmed env.getTxStatus m) ∧
        probeUnconfirmed env.getTxStatus c ∧ t = c.txid) ∧
    (∀ v2, Session.next env v chain = .ok (.done v2) ↔
      (v2 = v ∧ ∀ m ∈ keepNodes chain.reverse, probeConfirmed env.getTxStatus m)) := by
  have hscan : scanChain env.getTxStatus chain.reverse
      = scanChain env.getTxStatus (chain.filter (fun c => !c.skippable)).reverse := by
    rw [scanChain_skippable]
    unfold keepNodes
    rw [List.filter_reverse]
  refine ⟨?_, ?_, ?_⟩
  · unfold Session.next
    rw [hscan]
  · intro t
    have hbridge : Session.next env v chain = .ok (.wait t) ↔
        scanChain env.getTxStatus chain.reverse = .wait t := by
      unfold Session.next
      cases hsc : scanChain env.getTxStatus chain.reverse with
      | wait t2 => simp
      | finished => simp
      | candidate node =>
        constructor
        · intro h
          obtain ⟨tx, pkg, hs2⟩ := buildUnrollStep_ok env node _ h
          exact Step.noConfusion hs2
        · intro h
          exact ScanOutcome.noConfusion h
    rw [hbridge]
    exact scanChain_wait_iff env.getTxStatus chain.reverse t
  · intro v2
    have hbridge : Session.next env v chain = .ok (.done v2) ↔
        (scanChain env.getTxStatus chain.reverse = .finished ∧ v2 = v) := by
      unfold Session.next
      cases hsc : scanChain env.getTxStatus chain.reverse with
      | wait t2 => simp
      | finished => simp [eq_comm]
      | candidate node =>
        constructor
        · intro h
          obtain ⟨tx, pkg, hs2⟩ := buildUnrollStep_ok env node _ h
          exact Step.noConfusion hs2
        · rintro ⟨hfin, -⟩
          exact ScanOutcome.noConfusion hfin
    rw [hbridge, scanChain_finished_iff]
    exact and_comm

/-! ## C2 -/

/-- C2 (amended): during the unroll scan, EVERY error from the explorer's
`getTxStatus` probe — not only a not-found signal — is intercepted and
reinterpreted as identifying the next node to broadcast; no probe error
propagates out of `next()`, which proceeds to build the UNROLL step for
that node. -/
theorem next_intercepts_probe_errors (env : UnrollEnv) (v : String)
    (chain pre post : List ChainTx) (c : ChainTx) (e : ProviderError)
    (hsplit : keepNodes chain.reverse = pre ++ c :: post)
    (hpre : ∀ m ∈ pre, probeConfirmed env.getTxStatus m)
    (herr : env.getTxStatus c.txid = .error e) :
    Session.next env v chain = buildUnrollStep env c := by
  have hscan := scanChain_candidate_of env.getTxStatus chain.reverse pre c post e
    hsplit hpre herr
  unfold Session.next
  rw [hscan]

/-- Witness for C2 (amended): a network error at the probe of the only ARK
node is intercepted and the node becomes the broadcast candidate. -/
theorem next_intercepts_probe_errors_witness :
    keepNodes [arkNode].reverse = [] ++ arkNode :: [] ∧
    (∀ m ∈ ([] : List ChainTx), probeConfirmed netErrEnv.getTxStatus m) ∧
    netErrEnv.getTxStatus arkNode.txid = .error (.network "connection reset") ∧
    Session.next netErrEnv "v0" [arkNode] = buildUnrollStep netErrEnv arkNode :=
  ⟨rfl, by simp, rfl,
    next_intercepts_probe_errors netErrEnv "v0" [arkNode] [] [] arkNode
      (.network "connection reset") rfl (by simp) rfl⟩

/-- Counterexample to C2 as stated: with a provider whose `getTxStatus`
fails with a network error (not a not-found signal), `next()` does not
propagate the error — it returns a successful UNROLL step for the probed
node. -/
theorem next_swallows_network_probe_error :
    Session.next netErrEnv "v0" [arkNode]
      = .ok (.unroll txA.finalize ("aa", "childhex")) ∧
    (Except.ok (Step.unroll txA.finalize ("aa", "childhex")) : Except NextError Step)
      ≠ .error (.provider (.network "connection reset")) :=
  ⟨rfl, fun h => Except.noConfusion h⟩

/-! ## C1 -/

/-- C1: the code contradicts the claim — when submission of the built
parent+child package fails, `bumpP2A` logs and swallows the error inside
`try`/`catch`/`finally` and still returns the built package as a success.
Evaluated at a provider whose broadcast rejects: the call returns `ok`
with the package even though the broadcast errored. -/
theorem bumpP2A_swallows_broadcast_failure :
    OnchainWallet.bumpP2A bumpFailEnv parentTx = .ok ("parenthex", "childhex") ∧
    bumpFailEnv.broadcastPackage "parenthex" "childhex"
      = .error (.network "broadcast refused") := by
  refine ⟨?_, rfl⟩
  norm_num [OnchainWallet.bumpP2A, bumpFailEnv, parentTx, coinBig,
    effectiveFeeRate, MIN_FEE_RATE, TxWeightEstimator.create,
    TxWeightEstimator.addKeySpendInput, TxWeightEstimator.addP2AInput,
    TxWeightEstimator.addOutputScript, TxWeightEstimator.vsizeValue,
    TxWeightEstimator.weight, TxWeightEstimator.strippedSize,
    TxWeightEstimator.INPUT_SIZE, TxWeightEstimator.BASE_TX_SIZE,
    TxWeightEstimator.WITNESS_HEADER_SIZE, TxWeightEstimator.WITNESS_SCALE_FACTOR,
    getVarIntSize, selectCoins, sortByValueDesc, List.insertionSort,
    List.orderedInsert, selectLoop]

/-! ## C10 -/

/-- C10: once the per-VTXO checks have passed, `prepareUnrollTransaction`
throws (before building any output) whenever the estimated fee exceeds the
summed value of the selected VTXOs; whenever it succeeds it builds exactly
one output paying `totalAmount - feeAmount`, which is therefore
non-negative. -/
theorem prepareUnroll_fee_guard (env : PrepareEnv) (ids : List String)
    (addr : String) (tip : BlockTime) (vs : List Vtxo) (total : Nat)
    (est : TxWeightEstimator) (ins : List (String × Nat)) (r : Option Rat)
    (htip : env.getChainTip = .ok tip)
    (hvs : env.getVtxos = .ok vs)
    (hne : (vs.filter (fun v => ids.contains v.txid)).isEmpty = false)
    (hacc : accumVtxos env.getTxStatus tip (vs.filter (fun v => ids.contains v.txid))
      0 TxWeightEstimator.create [] = .ok (total, est, ins))
    (hr : env.getFeeRate = .ok r)
    (hden : (effectiveFeeRate r).den = 1) :
    ((total : Int) < (est.addP2TROutput).feeOf (effectiveFeeRate r).num →
      prepareUnrollTransaction env ids addr = .error .feeExceedsTotal) ∧
    ((est.addP2TROutput).feeOf (effectiveFeeRate r).num ≤ (total : Int) →
      prepareUnrollTransaction env ids addr
        = .ok { inputs := ins,
                outputs := [(addr, (total : Int)
                  - (est.addP2TROutput).feeOf (effectiveFeeRate r).num)] } ∧
      0 ≤ (total : Int) - (est.addP2TROutput).feeOf (effectiveFeeRate r).num) := by
  unfold prepareUnrollTransaction
  rw [htip, hvs]
  dsimp only
  rw [if_neg (by rw [hne]; exact Bool.false_ne_true), hacc]
  dsimp only
  rw [hr]
  dsimp only
  rw [if_neg (by simp [hden])]
  constructor
  · intro hlt
    rw [if_pos hlt]
  · intro hle
    rw [if_neg (not_lt.mpr hle)]
    exact ⟨rfl, by omega⟩

/-- Witness for C10: the sample VTXO at rate 2 — fee 280 against total
10000, so the build succeeds with the single output 10000 - 280. -/
theorem prepareUnroll_fee_guard_witness :
    prepEnvA.getChainTip = .ok { height := 300, time := 2000 } ∧
    prepEnvA.getVtxos = .ok [vtxoA] ∧
    ([vtxoA].filter (fun v => ["v0"].contains v.txid)).isEmpty = false ∧
    accumVtxos prepEnvA.getTxStatus { height := 300, time := 2000 }
      ([vtxoA].filter (fun v => ["v0"].contains v.txid)) 0
      TxWeightEstimator.create []
      = .ok (10000, TxWeightEstimator.create.addTapscriptInput 64 40 33,
             [("v0", 0)]) ∧
    prepEnvA.getFeeRate = .ok (some 2) ∧
    (effectiveFeeRate (some 2)).den = 1 ∧
    (prepareUnrollTransaction prepEnvA ["v0"] "dest"
      = .ok { inputs := [("v0", 0)],
              outputs := [("dest", ((10000 : Nat) : Int)
                - ((TxWeightEstimator.create.addTapscriptInput 64 40 33).addP2TROutput).feeOf
                    (effectiveFeeRate (some 2)).num)] } ∧
      0 ≤ ((10000 : Nat) : Int)
        - ((TxWeightEstimator.create.addTapscriptInput 64 40 33).addP2TROutput).feeOf
            (effectiveFeeRate (some 2)).num) :=
  ⟨rfl, rfl, rfl, rfl, rfl, by norm_num [effectiveFeeRate, MIN_FEE_RATE],
    (prepareUnroll_fee_guard prepEnvA ["v0"] "dest" { height := 300, time := 2000 }
      [vtxoA] 10000 (TxWeightEstimator.create.addTapscriptInput 64 40 33)
      [("v0", 0)] (some 2) rfl rfl rfl rfl rfl
      (by norm_num [effectiveFeeRate, MIN_FEE_RATE])).2
      (by norm_num [effectiveFeeRate, MIN_FEE_RATE, TxWeightEstimator.feeOf,
        TxWeightEstimator.addTapscriptInput, TxWeightEstimator.addP2TROutput,
        TxWeightEstimator.create, TxWeightEstimator.vsizeValue,
        TxWeightEstimator.weight, TxWeightEstimator.strippedSize, getVarIntSize,
        TxWeightEstimator.INPUT_SIZE, TxWeightEstimator.BASE_CONTROL_BLOCK_SIZE,
        TxWeightEstimator.OUTPUT_SIZE, TxWeightEstimator.P2TR_OUTPUT_SIZE,
        TxWeightEstimator.BASE_TX_SIZE, TxWeightEstimator.WITNESS_HEADER_SIZE,
        TxWeightEstimator.WITNESS_SCALE_FACTOR])⟩



